import Mathlib

/-!
Shallow embedding of the porquinho entry parser, serializer and monthly
status aggregation (src/parser.rs, src/bookkeeper/mod.rs,
src/bookkeeper/status.rs), together with theorems settling the frozen
claims about them.

Rust strings are modelled as `List Char` (Rust `char` and Lean `Char` are
both Unicode scalar values).  Places where Rust code can panic are modelled
explicitly (`RtResult.panicked`, `Option.none`).  `debug_assert!` lines are
compiled out of release builds and are not modelled.
-/

/-- Unicode White_Space property, as used by Rust `char::is_whitespace`
(`str::trim`, `str::trim_start`). -/
def rustIsWhitespace (c : Char) : Bool :=
  c.toNat = 0x09 || c.toNat = 0x0A || c.toNat = 0x0B || c.toNat = 0x0C ||
  c.toNat = 0x0D || c.toNat = 0x20 || c.toNat = 0x85 || c.toNat = 0xA0 ||
  c.toNat = 0x1680 || (0x2000 ≤ c.toNat && c.toNat ≤ 0x200A) ||
  c.toNat = 0x2028 || c.toNat = 0x2029 || c.toNat = 0x202F ||
  c.toNat = 0x205F || c.toNat = 0x3000

/-- Number of bytes of the UTF-8 encoding of a character; Rust byte indices
such as the `1` in `str::split_at(1)` count these. -/
def utf8Len (c : Char) : Nat :=
  if c.toNat < 0x80 then 1
  else if c.toNat < 0x800 then 2
  else if c.toNat < 0x10000 then 3
  else 4

/-- ASCII digit test, as used by Rust `char::to_digit(10)` inside the
integer parsers. -/
def isAsciiDigit (c : Char) : Bool :=
  48 ≤ c.toNat && c.toNat ≤ 57

/-- Numeric value of an ASCII digit character. -/
def charDigitVal (c : Char) : Nat :=
  c.toNat - 48

/-- The ASCII character of a decimal digit (`0 ≤ d ≤ 9`), as produced by
Rust decimal formatting (`BigInt::to_str_radix(10)`, `u8` Display). -/
def digitChar (d : Nat) : Char :=
  match d with
  | 0 => '0' | 1 => '1' | 2 => '2' | 3 => '3' | 4 => '4'
  | 5 => '5' | 6 => '6' | 7 => '7' | 8 => '8' | _ => '9'

/-- Rust `str::trim_start` (drop leading Unicode whitespace). -/
def trimStart (s : List Char) : List Char :=
  s.dropWhile rustIsWhitespace

/-- Rust `str::trim_end` (drop trailing Unicode whitespace). -/
def trimEnd (s : List Char) : List Char :=
  (s.reverse.dropWhile rustIsWhitespace).reverse

/-- Rust `str::trim` (drop whitespace on both ends). -/
def trim (s : List Char) : List Char :=
  trimEnd (trimStart s)

/-- Split at the first character satisfying `p`, dropping that character:
the shape shared by Rust `str::split_once` and the `str::find`-then-slice
pattern in `BigDecimal::from_str`. -/
def splitOnceP (p : Char → Bool) : List Char → Option (List Char × List Char)
  | [] => none
  | c :: t =>
    if p c then some ([], t)
    else (splitOnceP p t).map (fun pr => (c :: pr.1, pr.2))

/-- Rust `str::split_once(' ')`. -/
def splitOnceSpace (s : List Char) : Option (List Char × List Char) :=
  splitOnceP (fun c => c = ' ') s

/-- Value of a string of ASCII digit characters, most significant first,
accumulated the way Rust integer parsers do. -/
def digitsVal (s : List Char) : Nat :=
  s.foldl (fun a c => 10 * a + charDigitVal c) 0

/-- Parse a non-empty all-digit string to its value; the digit-loop shared
by the Rust `u8`, `i64` and `BigInt` string parsers. -/
def parseDigitsNat (s : List Char) : Option Nat :=
  if s.isEmpty then none
  else if s.all isAsciiDigit then some (digitsVal s)
  else none

/-- Rust `u8::from_str`: optional leading `+` sign, non-empty digits,
value at most 255 (larger values are a `PosOverflow` error). -/
def parseU8 : List Char → Option Nat
  | [] => none
  | c :: t =>
    let ds := if c = '+' then t else c :: t
    match parseDigitsNat ds with
    | some n => if n ≤ 255 then some n else none
    | none => none

/-- Rust `BigInt::from_str` (radix 10): optional sign, non-empty digits,
arbitrary precision. -/
def parseBigInt : List Char → Option Int
  | [] => none
  | c :: t =>
    if c = '+' then (parseDigitsNat t).map (fun n => (n : Int))
    else if c = '-' then (parseDigitsNat t).map (fun n => -(n : Int))
    else (parseDigitsNat (c :: t)).map (fun n => (n : Int))

/-- Rust `i64::from_str` (used for the exponent part of a decimal):
optional sign, non-empty digits, value within the 64-bit signed range. -/
def parseI64 : List Char → Option Int
  | [] => none
  | c :: t =>
    if c = '+' then
      match parseDigitsNat t with
      | some n => if (n : Int) ≤ 2 ^ 63 - 1 then some (n : Int) else none
      | none => none
    else if c = '-' then
      match parseDigitsNat t with
      | some n => if (n : Int) ≤ 2 ^ 63 then some (-(n : Int)) else none
      | none => none
    else
      match parseDigitsNat (c :: t) with
      | some n => if (n : Int) ≤ 2 ^ 63 - 1 then some (n : Int) else none
      | none => none

/-- The `bigdecimal::BigDecimal` representation: an arbitrary-precision
integer `int_val` and a scale, denoting the value `int_val / 10 ^ scale`. -/
structure BigDec where
  int_val : Int
  scale : Int
deriving DecidableEq, Repr

/-- Parse the part of a decimal literal before the exponent:
`BigDecimal::from_str_radix` after the exponent split.  The digits before
and after the first dot are concatenated and fed to `BigInt::from_str`;
the scale is the number of characters after the dot minus the exponent. -/
def baseWithExp (base : List Char) (exp : Int) : Option BigDec :=
  if base.isEmpty then none
  else
    let (digits, offset) :=
      match splitOnceP (fun c => c = '.') base with
      | none => (base, (0 : Int))
      | some (lead, trail) => (lead ++ trail, (trail.length : Int))
    match parseBigInt digits with
    | none => none
    | some n => some ⟨n, offset - exp⟩

/-- Rust `BigDecimal::from_str`: split at the first `e`/`E` into a base
part and an `i64` exponent, then parse the base part. -/
def bigDecimalFromStr (s : List Char) : Option BigDec :=
  match splitOnceP (fun c => c = 'e' || c = 'E') s with
  | none => baseWithExp s 0
  | some (base, expStr) =>
    match parseI64 expStr with
    | none => none
    | some exp => baseWithExp base exp

/-- Decimal digit string of a natural number, no leading zeros, `"0"` for
zero: Rust `BigInt::to_str_radix(10)` of the absolute value, and `u8`
Display.  Structural recursion on fuel so that concrete inputs evaluate by
kernel reduction; `natToDigits` supplies enough fuel for any input. -/
def natToDigitsAux : Nat → Nat → List Char → List Char
  | 0, _, acc => acc
  | fuel + 1, n, acc =>
    if n < 10 then digitChar n :: acc
    else natToDigitsAux fuel (n / 10) (digitChar (n % 10) :: acc)

/-- Decimal digit string of a natural number (see `natToDigitsAux`). -/
def natToDigits (n : Nat) : List Char :=
  natToDigitsAux (n + 1) n []

/-- Reference form of the decimal digit string, recursing on the value
directly; proofs relate `natToDigits` to it (`natToDigits_eq_natDigs`). -/
def natDigs (n : Nat) : List Char :=
  if _h : n < 10 then [digitChar n]
  else natDigs (n / 10) ++ [digitChar (n % 10)]
decreasing_by simp_wf; omega

/-- Rust `impl Display for BigDecimal` with no precision given (the `{}`
format used when serializing an entry): absolute digit string, decimal
point placed according to the scale, minus sign for negative values.
The Rust code splits the scale range into `scale >= len`,
`len - scale > len` and the remaining case; `scale = 0` lands in the
final `split_off(len)` case there and produces the bare digit string,
which the middle branch below reproduces with zero appended zeros. -/
def displayBigDec (d : BigDec) : List Char :=
  let a := natToDigits d.int_val.natAbs
  let body :=
    if (a.length : Int) ≤ d.scale then
      '0' :: '.' :: (List.replicate (d.scale.toNat - a.length) '0' ++ a)
    else if d.scale ≤ 0 then
      a ++ List.replicate (-d.scale).toNat '0'
    else
      a.take (a.length - d.scale.toNat) ++ '.' :: a.drop (a.length - d.scale.toNat)
  if d.int_val < 0 then '-' :: body else body

/-- Rust `impl Add for BigDecimal`: rescale the operand with the smaller
scale to the larger scale, then add the integer parts. -/
def bdAdd (x y : BigDec) : BigDec :=
  if x.scale = y.scale then ⟨x.int_val + y.int_val, x.scale⟩
  else if x.scale < y.scale then
    ⟨x.int_val * 10 ^ (y.scale - x.scale).toNat + y.int_val, y.scale⟩
  else
    ⟨x.int_val + y.int_val * 10 ^ (x.scale - y.scale).toNat, x.scale⟩

/-- Rust `impl Sum for BigDecimal`: fold `+` over the list starting from
`BigDecimal::zero()`. -/
def bdSum (l : List BigDec) : BigDec :=
  l.foldl bdAdd ⟨0, 0⟩

/-- Rust `impl PartialEq for BigDecimal`: align both values to the common
(larger) scale and compare the integer parts; this is numeric equality. -/
def bdEqv (x y : BigDec) : Prop :=
  x.int_val * 10 ^ (max x.scale y.scale - x.scale).toNat =
    y.int_val * 10 ^ (max x.scale y.scale - y.scale).toNat

instance (x y : BigDec) : Decidable (bdEqv x y) := by
  unfold bdEqv; exact inferInstance

/-- `EntryType` from src/parser.rs (named `OperationType` with variants
`Withdraw`/`Deposit` in the bookkeeper module's view of the parser). -/
inductive EntryType where
  /-- Entry is an expenditure. -/
  | Debit
  /-- Entry is income. -/
  | Credit
deriving DecidableEq, Repr

/-- `ParseError` from src/parser.rs; each variant carries the offending
substring exactly as the Rust code `to_owned`s it. -/
inductive ParseError where
  | InvalidEntryType (s : List Char)
  | InvalidDay (s : List Char)
  | InvalidDecimal (s : List Char)
  | NoDescription (s : List Char)
  | Malformed (s : List Char)
deriving DecidableEq, Repr

deriving instance DecidableEq for Except

/-- `Entry` from src/parser.rs (named `Operation` in the bookkeeper
module's view of the parser).  `day` is a Rust `u8`; the parser only ever
produces values at most 255. -/
structure Entry where
  day : Nat
  typ : EntryType
  amount : BigDec
  description : List Char
deriving DecidableEq, Repr

/-- Outcome of running a Rust function that may return a `ParseError` or
panic (out-of-bounds/non-boundary `split_at`, `unwrap`). -/
inductive RtResult (α : Type) where
  | ok (val : α)
  | err (e : ParseError)
  | panicked
deriving DecidableEq, Repr

/-- `parse_day` from src/parser.rs: trim the input, split at the first
space (`Malformed` on the untrimmed input if there is none), parse the
first token as a `u8` (`InvalidDay` on that token if it fails). -/
def parse_day (input : List Char) : Except ParseError (Nat × List Char) :=
  match splitOnceSpace (trim input) with
  | none => .error (.Malformed input)
  | some (first, rest) =>
    match parseU8 first with
    | none => .error (.InvalidDay first)
    | some day => .ok (day, rest)

/-- `parse_entry_type` from src/parser.rs: `input.split_at(1)` panics when
the input is empty (byte index 1 out of bounds) or its first character
occupies more than one byte (byte index 1 not a char boundary); otherwise
the one-character head is matched against `"+"` and `"-"`. -/
def parse_entry_type (input : List Char) : RtResult (EntryType × List Char) :=
  match input with
  | [] => .panicked
  | c :: rest =>
    if utf8Len c = 1 then
      if c = '+' then .ok (.Credit, rest)
      else if c = '-' then .ok (.Debit, rest)
      else .err (.InvalidEntryType [c])
    else .panicked

/-- The inner helper closure of `parse_decimal` in src/parser.rs (there
also called `parse_decimal`): split at the first space and fail when there
is no space or everything after it is whitespace. -/
def splitDesc (input : List Char) : Option (List Char × List Char) :=
  match splitOnceSpace input with
  | none => none
  | some (decimal, rest) =>
    if trim rest = [] then none else some (decimal, rest)

/-- `parse_decimal` from src/parser.rs: trim leading whitespace, separate
the decimal token from the (required, non-whitespace) remainder
(`NoDescription` on the trimmed input if that fails), then parse the token
as a `BigDecimal` (`InvalidDecimal` on the token if that fails). -/
def parse_decimal (input : List Char) : Except ParseError (BigDec × List Char) :=
  let t := trimStart input
  match splitDesc t with
  | none => .error (.NoDescription t)
  | some (decimal, rest) =>
    match bigDecimalFromStr decimal with
    | some d => .ok (d, rest)
    | none => .error (.InvalidDecimal decimal)

/-- `parse_description` from src/parser.rs. -/
def parse_description (input : List Char) : List Char :=
  trim input

/-- `Entry::from_str` from src/parser.rs: the four stages chained with
`?`; a panic inside `parse_entry_type` aborts everything. -/
def Entry.from_str (input : List Char) : RtResult Entry :=
  match parse_day input with
  | .error e => .err e
  | .ok (day, rest) =>
    match parse_entry_type rest with
    | .panicked => .panicked
    | .err e => .err e
    | .ok (typ, rest2) =>
      match parse_decimal rest2 with
      | .error e => .err e
      | .ok (amount, rest3) => .ok ⟨day, typ, amount, parse_description rest3⟩

/-- The symbol half of `OperationType::name_and_symbol`: `+` for Credit
(put), `-` for Debit (take); also the match in `Writer::write_entry`. -/
def kindSymbol : EntryType → Char
  | .Credit => '+'
  | .Debit => '-'

/-- The array-key half of `OperationType::name_and_symbol`. -/
def kindArrayKey : EntryType → String
  | .Credit => "put"
  | .Debit => "take"

/-- The serialized line built by `Bookkeeper::add_operation`
(src/bookkeeper/mod.rs) and `Writer::write_entry` (src/writer.rs):
`"{day} {symbol} {amount} {description}"`. -/
def serialize_entry (e : Entry) : List Char :=
  natToDigits e.day ++ ' ' :: kindSymbol e.typ :: ' ' ::
    (displayBigDec e.amount ++ ' ' :: e.description)

/-- The fragment of `toml::Value` the bookkeeper manipulates. -/
inductive TomlValue where
  | str (s : List Char)
  | int (n : Int)
  | float
  | boolean (b : Bool)
  | datetime
  | arr (xs : List TomlValue)
  | table (t : List (String × TomlValue))

/-- `toml::value::Table::get`. -/
def tomlGet (table : List (String × TomlValue)) (key : String) : Option TomlValue :=
  match table with
  | [] => none
  | kv :: rest => if kv.1 = key then some kv.2 else tomlGet rest key

/-- `toml::Value::is_array`. -/
def tomlIsArray : TomlValue → Bool
  | .arr _ => true
  | _ => false

/-- `toml::Value::is_str`. -/
def tomlIsStr : TomlValue → Bool
  | .str _ => true
  | _ => false

/-- `toml::Value::is_integer`. -/
def tomlIsInteger : TomlValue → Bool
  | .int _ => true
  | _ => false

/-- Rust `Option::map_or`. -/
def mapOr (o : Option TomlValue) (dflt : Bool) (f : TomlValue → Bool) : Bool :=
  match o with
  | none => dflt
  | some v => f v

/-- The `is_array_of_strings` closure of `type_check_toml_fields`
(src/bookkeeper/mod.rs); only invoked behind an `is_..._array &&` guard,
so the non-array case (a panic in Rust) is unreachable there. -/
def is_array_of_strings (v : Option TomlValue) : Bool :=
  match v with
  | some (.arr xs) => xs.all tomlIsStr
  | _ => false

/-- The five flags computed by `type_check_toml_fields`
(src/bookkeeper/mod.rs); the `TomlTypeCheck` struct itself lives in the
absent `error` module. -/
structure TomlTypeCheck where
  is_take_array : Bool
  is_put_array : Bool
  is_target_int_or_undefined : Bool
  is_take_array_of_strings : Bool
  is_put_array_of_strings : Bool

/-- Modelled from the spec: `TomlTypeCheck::into_diagnosis` is declared in
the `error` module, which is not under src/.  Per the spec, a structural
violation "fails the whole load with a description of which field(s) are
malformed", so the diagnosis is modelled as the list of malformed field
names, empty exactly when every check passed. -/
def into_diagnosis (c : TomlTypeCheck) : List String :=
  (if c.is_take_array_of_strings then [] else ["take"]) ++
    (if c.is_put_array_of_strings then [] else ["put"]) ++
      (if c.is_target_int_or_undefined then [] else ["target"])

/-- `type_check_toml_fields` from src/bookkeeper/mod.rs: compute the five
flags (`&&` short-circuits, so the unwrap inside `is_array_of_strings` is
guarded) and turn them into a diagnosis. -/
def type_check_toml_fields (table : List (String × TomlValue)) : List String :=
  let is_take_array := mapOr (tomlGet table "take") false tomlIsArray
  let is_put_array := mapOr (tomlGet table "put") false tomlIsArray
  let is_target_int_or_undefined := mapOr (tomlGet table "target") true tomlIsInteger
  let is_take_array_of_strings :=
    is_take_array && is_array_of_strings (tomlGet table "take")
  let is_put_array_of_strings :=
    is_put_array && is_array_of_strings (tomlGet table "put")
  into_diagnosis
    ⟨is_take_array, is_put_array, is_target_int_or_undefined,
      is_take_array_of_strings, is_put_array_of_strings⟩

/-- `BookkeeperStatus` from src/bookkeeper/status.rs. -/
structure BookkeeperStatus where
  take_total : BigDec
  put_total : BigDec
  all_operations : List Entry
  put_operations : List Entry
  take_operations : List Entry
  month : String
deriving DecidableEq, Repr

/-- The `value.as_str().unwrap()` step applied to every element of the
chained arrays; `none` models the panic on a non-string element. -/
def asStrAll : List TomlValue → Option (List (List Char))
  | [] => some []
  | .str s :: rest => (asStrAll rest).map (fun ls => s :: ls)
  | _ => none

/-- The `Operation::from_str(operation).unwrap()` step applied to every
line; `none` models the panic when any line fails to parse (or the parser
itself panics). -/
def parseAllLines : List (List Char) → Option (List Entry)
  | [] => some []
  | l :: rest =>
    match Entry.from_str l with
    | .ok e => (parseAllLines rest).map (fun es => e :: es)
    | _ => none

/-- The `match operation.kind` dispatch of the aggregation loop in
`BookkeeperStatus::from_toml_table`, applied along the chained list:
returns (take_operations, put_operations) in encounter order. -/
def partitionOps : List Entry → List Entry × List Entry
  | [] => ([], [])
  | e :: rest =>
    let (takes, puts) := partitionOps rest
    match e.typ with
    | .Debit => (e :: takes, puts)
    | .Credit => (takes, e :: puts)

/-- `BookkeeperStatus::from_toml_table` from src/bookkeeper/status.rs:
index the `take` and `put` arrays (panicking — `none` — when absent or
not arrays), walk `take.iter().chain(put)` unwrapping each element as a
string and parsing it as an entry (panicking on any failure), partition by
kind, and sum the amounts of each partition. -/
def from_toml_table (table : List (String × TomlValue)) (month : String) :
    Option BookkeeperStatus :=
  match tomlGet table "take", tomlGet table "put" with
  | some (.arr takeVals), some (.arr putVals) =>
    match asStrAll (takeVals ++ putVals) with
    | none => none
    | some lines =>
      match parseAllLines lines with
      | none => none
      | some all_operations =>
        let (take_operations, put_operations) := partitionOps all_operations
        let take_total := bdSum (take_operations.map Entry.amount)
        let put_total := bdSum (put_operations.map Entry.amount)
        some ⟨take_total, put_total, all_operations, put_operations,
          take_operations, month⟩
  | _, _ => none

/-- Outcome of `Bookkeeper::load_from_path` after the file contents have
been read and decoded into a table: a structural type error, a panic
inside the status computation, or a loaded status. -/
inductive LoadOutcome where
  | typeError (fields : List String)
  | panicked
  | ok (status : BookkeeperStatus)

/-- The table-to-status part of `Bookkeeper::load_from_path`
(src/bookkeeper/mod.rs): run `type_check_toml_fields` first and return
`Error::InvalidTomlTypes` with the diagnosis when it reports anything;
only then compute the status via `from_toml_table`. -/
def load_from_table (table : List (String × TomlValue)) (month : String) :
    LoadOutcome :=
  let diag := type_check_toml_fields table
  if diag = [] then
    match from_toml_table table month with
    | none => .panicked
    | some st => .ok st
  else .typeError diag

/-- A month store holding the given `take` and `put` entry lines, as the
bookkeeper's TOML document represents it. -/
def mkStore (take put : List (List Char)) : List (String × TomlValue) :=
  [("take", .arr (take.map .str)), ("put", .arr (put.map .str))]

/-- The `take`/`put`/`target` structural requirement the spec states for
a loaded document: used to phrase claims about `type_check_toml_fields`. -/
def takeFieldOk (table : List (String × TomlValue)) : Bool :=
  match tomlGet table "take" with
  | some (.arr xs) => xs.all tomlIsStr
  | _ => false

/-- See `takeFieldOk`. -/
def putFieldOk (table : List (String × TomlValue)) : Bool :=
  match tomlGet table "put" with
  | some (.arr xs) => xs.all tomlIsStr
  | _ => false

/-- See `takeFieldOk`. -/
def targetFieldOk (table : List (String × TomlValue)) : Bool :=
  match tomlGet table "target" with
  | none => true
  | some v => tomlIsInteger v

/-- Entry equality as derived in Rust (`PartialEq` on `Entry`): fieldwise,
with `BigDecimal` equality being numeric. -/
def entryEqv (x y : Entry) : Prop :=
  x.day = y.day ∧ x.typ = y.typ ∧ bdEqv x.amount y.amount ∧
    x.description = y.description

instance (x y : Entry) : Decidable (entryEqv x y) := by
  unfold entryEqv; exact inferInstance

/-- Validity of an `Entry` as the claims state it: day in 1–31,
non-negative amount, description non-empty after trimming. -/
def claimValidEntry (e : Entry) : Prop :=
  1 ≤ e.day ∧ e.day ≤ 31 ∧ 0 ≤ e.amount.int_val ∧ trim e.description ≠ []

instance (e : Entry) : Decidable (claimValidEntry e) := by
  unfold claimValidEntry; exact inferInstance

/-! Helper lemmas: characters and digits. -/

theorem char_eq_of_toNat {a b : Char} (h : a.toNat = b.toNat) : a = b :=
  Char.ext (UInt32.ext h)

theorem isAsciiDigit_iff {c : Char} :
    isAsciiDigit c = true ↔ 48 ≤ c.toNat ∧ c.toNat ≤ 57 := by
  simp [isAsciiDigit]

theorem digit_ne_of_toNat {c c2 : Char} (h : isAsciiDigit c = true)
    (h2 : c2.toNat < 48 ∨ 57 < c2.toNat) : c ≠ c2 := by
  rcases isAsciiDigit_iff.mp h with ⟨h48, h57⟩
  intro he
  subst he
  omega

theorem digit_not_ws {c : Char} (h : isAsciiDigit c = true) :
    rustIsWhitespace c = false := by
  rcases isAsciiDigit_iff.mp h with ⟨h48, h57⟩
  simp only [rustIsWhitespace, Bool.or_eq_false_iff, Bool.and_eq_false_iff,
    decide_eq_false_iff_not]
  omega

theorem digit_ne_space {c : Char} (h : isAsciiDigit c = true) : c ≠ ' ' :=
  digit_ne_of_toNat h (by decide)

theorem digit_ne_dot {c : Char} (h : isAsciiDigit c = true) : c ≠ '.' :=
  digit_ne_of_toNat h (by decide)

theorem digit_ne_exp {c : Char} (h : isAsciiDigit c = true) :
    (c = 'e' || c = 'E') = false := by
  have h1 : c ≠ 'e' := digit_ne_of_toNat h (by decide)
  have h2 : c ≠ 'E' := digit_ne_of_toNat h (by decide)
  simp [h1, h2]

theorem digit_ne_plus {c : Char} (h : isAsciiDigit c = true) : c ≠ '+' :=
  digit_ne_of_toNat h (by decide)

theorem digit_ne_minus {c : Char} (h : isAsciiDigit c = true) : c ≠ '-' :=
  digit_ne_of_toNat h (by decide)

theorem digitChar_toNat {d : Nat} (h : d ≤ 9) :
    (digitChar d).toNat = 48 + d := by
  interval_cases d <;> rfl

theorem isAsciiDigit_digitChar {d : Nat} (h : d ≤ 9) :
    isAsciiDigit (digitChar d) = true := by
  rw [isAsciiDigit_iff, digitChar_toNat h]
  omega

theorem charDigitVal_digitChar {d : Nat} (h : d ≤ 9) :
    charDigitVal (digitChar d) = d := by
  unfold charDigitVal
  rw [digitChar_toNat h]
  omega

/-! Helper lemmas: splitting. -/

theorem splitOnceP_none {p : Char → Bool} {l : List Char}
    (h : ∀ c ∈ l, p c = false) : splitOnceP p l = none := by
  induction l with
  | nil => rfl
  | cons c t ih =>
    have hc : p c = false := h c (by simp)
    simp [splitOnceP, hc, ih (fun x hx => h x (by simp [hx]))]

theorem splitOnceP_append {p : Char → Bool} {a b : List Char} {c0 : Char}
    (ha : ∀ c ∈ a, p c = false) (hc : p c0 = true) :
    splitOnceP p (a ++ c0 :: b) = some (a, b) := by
  induction a with
  | nil => simp [splitOnceP, hc]
  | cons c t ih =>
    have h1 : p c = false := ha c (by simp)
    simp [splitOnceP, h1, ih (fun x hx => ha x (by simp [hx]))]

theorem splitOnceP_cons_of_not {p : Char → Bool} {c : Char} {t : List Char}
    (h : p c = false) :
    splitOnceP p (c :: t) =
      (splitOnceP p t).map (fun pr => (c :: pr.1, pr.2)) := by
  simp [splitOnceP, h]

/-! Helper lemmas: digit-string values. -/

theorem digitsVal_nil : digitsVal [] = 0 := rfl

theorem foldl_digits_init (b : List Char) (i : Nat) :
    b.foldl (fun a c => 10 * a + charDigitVal c) i =
      i * 10 ^ b.length + digitsVal b := by
  induction b generalizing i with
  | nil => simp [digitsVal]
  | cons c t ih =>
    simp only [List.foldl_cons, List.length_cons, digitsVal]
    rw [ih (10 * i + charDigitVal c), ih (10 * 0 + charDigitVal c)]
    ring

theorem digitsVal_append (a b : List Char) :
    digitsVal (a ++ b) = digitsVal a * 10 ^ b.length + digitsVal b := by
  unfold digitsVal
  rw [List.foldl_append]
  exact foldl_digits_init b _

theorem digitsVal_replicate_zero (k : Nat) :
    digitsVal (List.replicate k '0') = 0 := by
  induction k with
  | zero => rfl
  | succ n ih =>
    have : digitsVal (List.replicate (n + 1) '0') =
        digitsVal (List.replicate n '0' ++ ['0']) := by
      rw [← List.replicate_succ' n '0']
    rw [this, digitsVal_append, ih]
    rfl

theorem digitsVal_zeros_append (k : Nat) (a : List Char) :
    digitsVal (List.replicate k '0' ++ a) = digitsVal a := by
  rw [digitsVal_append, digitsVal_replicate_zero]
  ring

theorem digitsVal_append_zeros (a : List Char) (k : Nat) :
    digitsVal (a ++ List.replicate k '0') = digitsVal a * 10 ^ k := by
  rw [digitsVal_append, digitsVal_replicate_zero, List.length_replicate]
  ring

/-! Helper lemmas: the decimal digit string of a natural number. -/

theorem natDigs_of_lt {n : Nat} (h : n < 10) : natDigs n = [digitChar n] := by
  rw [natDigs]
  simp [h]

theorem natDigs_of_ge {n : Nat} (h : ¬ n < 10) :
    natDigs n = natDigs (n / 10) ++ [digitChar (n % 10)] := by
  rw [natDigs]
  simp [h]

theorem natDigs_ne_nil (n : Nat) : natDigs n ≠ [] := by
  induction n using natDigs.induct with
  | case1 x hx => simp [natDigs_of_lt hx]
  | case2 x hx ih => simp [natDigs_of_ge hx]

theorem natDigs_all_digit (n : Nat) :
    ∀ c ∈ natDigs n, isAsciiDigit c = true := by
  induction n using natDigs.induct with
  | case1 x hx =>
    intro c hc
    rw [natDigs_of_lt hx] at hc
    simp at hc
    subst hc
    exact isAsciiDigit_digitChar (by omega)
  | case2 x hx ih =>
    intro c hc
    rw [natDigs_of_ge hx] at hc
    rcases List.mem_append.mp hc with h1 | h2
    · exact ih c h1
    · simp at h2
      subst h2
      exact isAsciiDigit_digitChar (by omega)

theorem digitsVal_natDigs (n : Nat) : digitsVal (natDigs n) = n := by
  induction n using natDigs.induct with
  | case1 x hx =>
    rw [natDigs_of_lt hx]
    show digitsVal [digitChar x] = x
    unfold digitsVal
    simp [charDigitVal_digitChar (by omega : x ≤ 9)]
  | case2 x hx ih =>
    rw [natDigs_of_ge hx, digitsVal_append, ih]
    have h1 : digitsVal [digitChar (x % 10)] = x % 10 := by
      unfold digitsVal
      simp [charDigitVal_digitChar (by omega : x % 10 ≤ 9)]
    rw [h1]
    simp
    omega

theorem natToDigitsAux_eq (fuel n : Nat) (acc : List Char) (h : n < fuel) :
    natToDigitsAux fuel n acc = natDigs n ++ acc := by
  induction fuel generalizing n acc with
  | zero => omega
  | succ f ih =>
    by_cases h10 : n < 10
    · simp [natToDigitsAux, h10, natDigs_of_lt h10]
    · have hdiv : n / 10 < f := by omega
      simp only [natToDigitsAux, if_neg h10]
      rw [ih (n / 10) _ hdiv, natDigs_of_ge h10, List.append_assoc]
      rfl

theorem natToDigits_eq_natDigs (n : Nat) : natToDigits n = natDigs n := by
  unfold natToDigits
  rw [natToDigitsAux_eq (n + 1) n [] (by omega)]
  simp

theorem parseDigitsNat_of_digits {l : List Char} (h : l ≠ [])
    (hd : ∀ c ∈ l, isAsciiDigit c = true) :
    parseDigitsNat l = some (digitsVal l) := by
  unfold parseDigitsNat
  rw [if_neg (by simpa using h), if_pos (by simpa [List.all_eq_true] using hd)]

theorem parseDigitsNat_natDigs (n : Nat) :
    parseDigitsNat (natDigs n) = some n := by
  rw [parseDigitsNat_of_digits (natDigs_ne_nil n) (natDigs_all_digit n),
    digitsVal_natDigs]

theorem parseU8_natDigs {n : Nat} (h : n ≤ 255) :
    parseU8 (natDigs n) = some n := by
  rcases hne : natDigs n with _ | ⟨c, t⟩
  · exact absurd hne (natDigs_ne_nil n)
  · have hc : isAsciiDigit c = true := by
      apply natDigs_all_digit n
      rw [hne]
      simp
    have hcp : ¬ c = '+' := digit_ne_plus hc
    unfold parseU8
    simp only [hne, if_neg hcp]
    rw [← hne, parseDigitsNat_natDigs]
    simp [h]

theorem parseU8_le {s : List Char} {n : Nat} (h : parseU8 s = some n) :
    n ≤ 255 := by
  rcases s with _ | ⟨c, t⟩
  · exact absurd h (by simp [parseU8])
  · simp only [parseU8] at h
    split at h
    · split at h
      · injection h with h
        omega
      · exact absurd h (by simp)
    · exact absurd h (by simp)

theorem parseBigInt_digits {l : List Char} (h : l ≠ [])
    (hd : ∀ c ∈ l, isAsciiDigit c = true) :
    parseBigInt l = some ((digitsVal l : Int)) := by
  rcases hne : l with _ | ⟨c, t⟩
  · exact absurd hne h
  · have hc : isAsciiDigit c = true := by
      apply hd
      rw [hne]
      simp
    subst hne
    simp only [parseBigInt, if_neg (digit_ne_plus hc),
      if_neg (digit_ne_minus hc), parseDigitsNat_of_digits h hd]
    rfl

theorem parseBigInt_neg_digits {l : List Char} (h : l ≠ [])
    (hd : ∀ c ∈ l, isAsciiDigit c = true) :
    parseBigInt ('-' :: l) = some (-(digitsVal l : Int)) := by
  simp only [parseBigInt, if_neg (show ¬('-' = '+') by decide), if_pos rfl,
    parseDigitsNat_of_digits h hd]
  rfl

/-! Helper lemmas: trimming. -/

theorem length_dropWhile_le (p : Char → Bool) (l : List Char) :
    (l.dropWhile p).length ≤ l.length := by
  induction l with
  | nil => simp
  | cons c t ih =>
    by_cases h : p c
    · simp only [List.dropWhile_cons, if_pos h]
      simp only [List.length_cons]
      omega
    · simp [List.dropWhile_cons, if_neg h]

theorem dropWhile_head_false {p : Char → Bool} {l t : List Char} {c : Char}
    (h : l.dropWhile p = c :: t) : p c = false := by
  induction l with
  | nil => simp at h
  | cons d r ih =>
    by_cases hd : p d
    · rw [List.dropWhile_cons, if_pos hd] at h
      exact ih h
    · rw [List.dropWhile_cons, if_neg hd] at h
      injection h with h1 _
      subst h1
      simpa using hd

theorem dropWhile_idem (p : Char → Bool) (l : List Char) :
    (l.dropWhile p).dropWhile p = l.dropWhile p := by
  rcases h : l.dropWhile p with _ | ⟨c, t⟩
  · rfl
  · rw [List.dropWhile_cons, if_neg (by simp [dropWhile_head_false h])]

theorem trimStart_cons_not_ws {c : Char} {t : List Char}
    (h : rustIsWhitespace c = false) : trimStart (c :: t) = c :: t := by
  unfold trimStart
  rw [List.dropWhile_cons, if_neg (by simp [h])]

theorem trimStart_idem (s : List Char) :
    trimStart (trimStart s) = trimStart s :=
  dropWhile_idem rustIsWhitespace s

theorem trimEnd_idem (s : List Char) : trimEnd (trimEnd s) = trimEnd s := by
  unfold trimEnd
  rw [List.reverse_reverse, dropWhile_idem]

theorem trimEnd_append {a b : List Char} (h : trimEnd b ≠ []) :
    trimEnd (a ++ b) = a ++ trimEnd b := by
  have hb : (b.reverse.dropWhile rustIsWhitespace).isEmpty = false := by
    rcases he : b.reverse.dropWhile rustIsWhitespace with _ | ⟨c, t⟩
    · exact absurd (by unfold trimEnd; rw [he]; rfl) h
    · rfl
  unfold trimEnd
  rw [List.reverse_append, List.dropWhile_append, hb]
  simp

theorem trimEnd_decomp (s : List Char) : ∃ w, s = trimEnd s ++ w := by
  refine ⟨(s.reverse.takeWhile rustIsWhitespace).reverse, ?_⟩
  unfold trimEnd
  rw [← List.reverse_append, List.takeWhile_append_dropWhile]
  simp

theorem head_not_ws_of_trimStart_eq {c : Char} {t : List Char}
    (h : trimStart (c :: t) = c :: t) : rustIsWhitespace c = false := by
  by_cases hc : rustIsWhitespace c
  · exfalso
    unfold trimStart at h
    rw [List.dropWhile_cons, if_pos (by simp [hc])] at h
    have := length_dropWhile_le rustIsWhitespace t
    rw [h] at this
    simp at this
  · simpa using hc

theorem trimStart_trimEnd {s : List Char} (h : trimStart s = s) :
    trimStart (trimEnd s) = trimEnd s := by
  rcases s with _ | ⟨c, t⟩
  · rfl
  · have hc : rustIsWhitespace c = false := head_not_ws_of_trimStart_eq h
    rcases trimEnd_decomp (c :: t) with ⟨w, hw⟩
    rcases he : trimEnd (c :: t) with _ | ⟨d, v⟩
    · rfl
    · rw [he] at hw
      have hd : d = c := by
        have := hw
        simp at this
        exact this.1.symm
      subst hd
      exact trimStart_cons_not_ws hc

theorem trim_idem (s : List Char) : trim (trim s) = trim s := by
  show trimEnd (trimStart (trimEnd (trimStart s))) = trimEnd (trimStart s)
  rw [trimStart_trimEnd (trimStart_idem s), trimEnd_idem]

theorem trim_eq_self {s : List Char} (h1 : trimStart s = s)
    (h2 : trimEnd s = s) : trim s = s := by
  unfold trim
  rw [h1, h2]

/-! Helper lemmas: characters appearing in a displayed decimal. -/

theorem isAsciiDigit_zero_char : isAsciiDigit '0' = true := by decide

theorem displayBigDec_chars (d : BigDec) :
    ∀ c ∈ displayBigDec d, isAsciiDigit c = true ∨ c = '.' ∨ c = '-' := by
  intro c hc
  simp only [displayBigDec, natToDigits_eq_natDigs] at hc
  have hdig := natDigs_all_digit d.int_val.natAbs
  split at hc
  case isTrue =>
    rcases List.mem_cons.mp hc with h | hc2
    · right; right; exact h
    · split at hc2
      case isTrue =>
        rcases List.mem_cons.mp hc2 with h | hc3
        · left; rw [h]; exact isAsciiDigit_zero_char
        · rcases List.mem_cons.mp hc3 with h | hc4
          · right; left; exact h
          · rcases List.mem_append.mp hc4 with h | h
            · left
              rw [(List.mem_replicate.mp h).2]
              exact isAsciiDigit_zero_char
            · left; exact hdig c h
      case isFalse =>
        split at hc2
        case isTrue =>
          rcases List.mem_append.mp hc2 with h | h
          · left; exact hdig c h
          · left
            rw [(List.mem_replicate.mp h).2]
            exact isAsciiDigit_zero_char
        case isFalse =>
          rcases List.mem_append.mp hc2 with h | h
          · left; exact hdig c (List.take_subset _ _ h)
          · rcases List.mem_cons.mp h with h2 | h2
            · right; left; exact h2
            · left; exact hdig c (List.drop_subset _ _ h2)
  case isFalse =>
    split at hc
    case isTrue =>
      rcases List.mem_cons.mp hc with h | hc3
      · left; rw [h]; exact isAsciiDigit_zero_char
      · rcases List.mem_cons.mp hc3 with h | hc4
        · right; left; exact h
        · rcases List.mem_append.mp hc4 with h | h
          · left
            rw [(List.mem_replicate.mp h).2]
            exact isAsciiDigit_zero_char
          · left; exact hdig c h
    case isFalse =>
      split at hc
      case isTrue =>
        rcases List.mem_append.mp hc with h | h
        · left; exact hdig c h
        · left
          rw [(List.mem_replicate.mp h).2]
          exact isAsciiDigit_zero_char
      case isFalse =>
        rcases List.mem_append.mp hc with h | h
        · left; exact hdig c (List.take_subset _ _ h)
        · rcases List.mem_cons.mp h with h2 | h2
          · right; left; exact h2
          · left; exact hdig c (List.drop_subset _ _ h2)

theorem displayBigDec_no_exp (d : BigDec) :
    ∀ c ∈ displayBigDec d, (c = 'e' || c = 'E') = false := by
  intro c hc
  rcases displayBigDec_chars d c hc with h | h | h
  · exact digit_ne_exp h
  · rw [h]; decide
  · rw [h]; decide

theorem displayBigDec_no_space (d : BigDec) :
    ∀ c ∈ displayBigDec d, ¬ c = ' ' := by
  intro c hc
  rcases displayBigDec_chars d c hc with h | h | h
  · exact digit_ne_space h
  · rw [h]; decide
  · rw [h]; decide

theorem displayBigDec_not_ws (d : BigDec) :
    ∀ c ∈ displayBigDec d, rustIsWhitespace c = false := by
  intro c hc
  rcases displayBigDec_chars d c hc with h | h | h
  · exact digit_not_ws h
  · rw [h]; decide
  · rw [h]; decide

/-! Helper lemmas: parsing back a displayed decimal. -/

theorem bdEqv_refl (x : BigDec) : bdEqv x x := by
  unfold bdEqv
  rfl

theorem baseWithExp_digits {l : List Char} (h : l ≠ [])
    (hd : ∀ c ∈ l, isAsciiDigit c = true) :
    baseWithExp l 0 = some ⟨(digitsVal l : Int), 0⟩ := by
  have hdot : splitOnceP (fun c => c = '.') l = none :=
    splitOnceP_none (fun c hc => decide_eq_false (digit_ne_dot (hd c hc)))
  unfold baseWithExp
  rw [if_neg (by simpa using h)]
  simp only [hdot, parseBigInt_digits h hd]
  simp

theorem baseWithExp_neg_digits {l : List Char} (h : l ≠ [])
    (hd : ∀ c ∈ l, isAsciiDigit c = true) :
    baseWithExp ('-' :: l) 0 = some ⟨-(digitsVal l : Int), 0⟩ := by
  have hdot : splitOnceP (fun c => c = '.') ('-' :: l) = none := by
    apply splitOnceP_none
    intro c hc
    rcases List.mem_cons.mp hc with h2 | h2
    · rw [h2]; decide
    · exact decide_eq_false (digit_ne_dot (hd c h2))
  unfold baseWithExp
  rw [if_neg (by simp)]
  simp only [hdot, parseBigInt_neg_digits h hd]
  simp

theorem baseWithExp_dot {x y : List Char} (hx : x ≠ [])
    (hdx : ∀ c ∈ x, isAsciiDigit c = true)
    (hdy : ∀ c ∈ y, isAsciiDigit c = true) :
    baseWithExp (x ++ '.' :: y) 0 =
      some ⟨(digitsVal (x ++ y) : Int), (y.length : Int)⟩ := by
  have hdot : splitOnceP (fun c => c = '.') (x ++ '.' :: y) = some (x, y) :=
    splitOnceP_append
      (fun c hc => decide_eq_false (digit_ne_dot (hdx c hc))) (by decide)
  have hxy : x ++ y ≠ [] := by
    intro hh
    exact hx (List.append_eq_nil.mp hh).1
  have hdxy : ∀ c ∈ x ++ y, isAsciiDigit c = true := by
    intro c hc
    rcases List.mem_append.mp hc with h | h
    · exact hdx c h
    · exact hdy c h
  unfold baseWithExp
  rw [if_neg (by simp [hx])]
  simp only [hdot, parseBigInt_digits hxy hdxy]
  simp

theorem baseWithExp_neg_dot {x y : List Char} (hx : x ≠ [])
    (hdx : ∀ c ∈ x, isAsciiDigit c = true)
    (hdy : ∀ c ∈ y, isAsciiDigit c = true) :
    baseWithExp ('-' :: (x ++ '.' :: y)) 0 =
      some ⟨-(digitsVal (x ++ y) : Int), (y.length : Int)⟩ := by
  have hdot : splitOnceP (fun c => c = '.') ('-' :: (x ++ '.' :: y)) =
      some ('-' :: x, y) := by
    rw [splitOnceP_cons_of_not (by decide),
      splitOnceP_append
        (fun c hc => decide_eq_false (digit_ne_dot (hdx c hc))) (by decide)]
    rfl
  have hxy : x ++ y ≠ [] := by
    intro hh
    exact hx (List.append_eq_nil.mp hh).1
  have hdxy : ∀ c ∈ x ++ y, isAsciiDigit c = true := by
    intro c hc
    rcases List.mem_append.mp hc with h | h
    · exact hdx c h
    · exact hdy c h
  unfold baseWithExp
  rw [if_neg (by simp)]
  have hcons : ('-' :: x) ++ y = '-' :: (x ++ y) := rfl
  simp only [hdot, hcons, parseBigInt_neg_digits hxy hdxy]
  simp

theorem bdEqv_mk (a b v s : Int) :
    bdEqv ⟨a, b⟩ ⟨v, s⟩ ↔
      a * 10 ^ (max b s - b).toNat = v * 10 ^ (max b s - s).toNat :=
  Iff.rfl

theorem display_roundtrip (d : BigDec) :
    ∃ d2, bigDecimalFromStr (displayBigDec d) = some d2 ∧ bdEqv d2 d := by
  obtain ⟨v, s⟩ := d
  have hexp :
      splitOnceP (fun c => c = 'e' || c = 'E') (displayBigDec ⟨v, s⟩) = none :=
    splitOnceP_none (displayBigDec_no_exp _)
  have hfs : bigDecimalFromStr (displayBigDec ⟨v, s⟩) =
      baseWithExp (displayBigDec ⟨v, s⟩) 0 := by
    simp only [bigDecimalFromStr, hexp]
  have hne := natDigs_ne_nil v.natAbs
  have hdig := natDigs_all_digit v.natAbs
  have hval := digitsVal_natDigs v.natAbs
  have hlenpos : 0 < (natDigs v.natAbs).length := List.length_pos.mpr hne
  rw [hfs]
  by_cases hb1 : (((natDigs v.natAbs).length : Int) ≤ s)
  · -- Scale at least the digit count: the "0.000ddd" shape.
    have hs0 : (0 : Int) < s := lt_of_lt_of_le (by exact_mod_cast hlenpos) hb1
    have hzero : ∀ c ∈ List.replicate (s.toNat - (natDigs v.natAbs).length) '0'
        ++ natDigs v.natAbs, isAsciiDigit c = true := by
      intro c hc
      rcases List.mem_append.mp hc with h | h
      · rw [(List.mem_replicate.mp h).2]
        exact isAsciiDigit_zero_char
      · exact hdig c h
    have hdv : digitsVal (['0'] ++
        (List.replicate (s.toNat - (natDigs v.natAbs).length) '0' ++
          natDigs v.natAbs)) = v.natAbs := by
      have hsh : (['0'] : List Char) ++
          (List.replicate (s.toNat - (natDigs v.natAbs).length) '0' ++
            natDigs v.natAbs) =
          List.replicate (s.toNat - (natDigs v.natAbs).length + 1) '0' ++
            natDigs v.natAbs := by
        simp [List.replicate_succ]
      rw [hsh, digitsVal_zeros_append, hval]
    have hlencalc : ((List.replicate (s.toNat - (natDigs v.natAbs).length) '0'
        ++ natDigs v.natAbs)).length = s.toNat := by
      simp only [List.length_append, List.length_replicate]
      omega
    by_cases hv : v < 0
    · have hdisp : displayBigDec ⟨v, s⟩ = '-' :: (['0'] ++ '.' ::
          (List.replicate (s.toNat - (natDigs v.natAbs).length) '0' ++
            natDigs v.natAbs)) := by
        simp only [displayBigDec, natToDigits_eq_natDigs]
        rw [if_pos hv, if_pos hb1]
        rfl
      rw [hdisp, baseWithExp_neg_dot (by simp) (by decide) hzero]
      refine ⟨_, rfl, ?_⟩
      have h1 : -(digitsVal (['0'] ++
          (List.replicate (s.toNat - (natDigs v.natAbs).length) '0' ++
            natDigs v.natAbs)) : Int) = v := by
        rw [hdv]
        omega
      have h2 : (((List.replicate (s.toNat - (natDigs v.natAbs).length) '0' ++
          natDigs v.natAbs)).length : Int) = s := by
        rw [hlencalc]
        omega
      have heq : (⟨-(digitsVal (['0'] ++
          (List.replicate (s.toNat - (natDigs v.natAbs).length) '0' ++
            natDigs v.natAbs)) : Int),
          (((List.replicate (s.toNat - (natDigs v.natAbs).length) '0' ++
            natDigs v.natAbs)).length : Int)⟩ : BigDec) = ⟨v, s⟩ := by
        simp only [BigDec.mk.injEq]
        exact ⟨h1, h2⟩
      rw [heq]
      exact bdEqv_refl _
    · have hdisp : displayBigDec ⟨v, s⟩ = ['0'] ++ '.' ::
          (List.replicate (s.toNat - (natDigs v.natAbs).length) '0' ++
            natDigs v.natAbs) := by
        simp only [displayBigDec, natToDigits_eq_natDigs]
        rw [if_neg hv, if_pos hb1]
        rfl
      rw [hdisp, baseWithExp_dot (by simp) (by decide) hzero]
      refine ⟨_, rfl, ?_⟩
      have h1 : ((digitsVal (['0'] ++
          (List.replicate (s.toNat - (natDigs v.natAbs).length) '0' ++
            natDigs v.natAbs)) : Nat) : Int) = v := by
        rw [hdv]
        omega
      have h2 : (((List.replicate (s.toNat - (natDigs v.natAbs).length) '0' ++
          natDigs v.natAbs)).length : Int) = s := by
        rw [hlencalc]
        omega
      have heq : (⟨((digitsVal (['0'] ++
          (List.replicate (s.toNat - (natDigs v.natAbs).length) '0' ++
            natDigs v.natAbs)) : Nat) : Int),
          (((List.replicate (s.toNat - (natDigs v.natAbs).length) '0' ++
            natDigs v.natAbs)).length : Int)⟩ : BigDec) = ⟨v, s⟩ := by
        simp only [BigDec.mk.injEq]
        exact ⟨h1, h2⟩
      rw [heq]
      exact bdEqv_refl _
  · by_cases hb2 : s ≤ 0
    · -- Non-positive scale: the bare "ddd000" shape.
      have hzeros : ∀ c ∈ natDigs v.natAbs ++
          List.replicate (-s).toNat '0', isAsciiDigit c = true := by
        intro c hc
        rcases List.mem_append.mp hc with h | h
        · exact hdig c h
        · rw [(List.mem_replicate.mp h).2]
          exact isAsciiDigit_zero_char
      have hne2 : natDigs v.natAbs ++ List.replicate (-s).toNat '0' ≠ [] := by
        intro hh
        exact hne (List.append_eq_nil.mp hh).1
      by_cases hv : v < 0
      · have hdisp : displayBigDec ⟨v, s⟩ = '-' :: (natDigs v.natAbs ++
            List.replicate (-s).toNat '0') := by
          simp only [displayBigDec, natToDigits_eq_natDigs]
          rw [if_pos hv, if_neg hb1, if_pos hb2]
        rw [hdisp, baseWithExp_neg_digits hne2 hzeros]
        refine ⟨_, rfl, ?_⟩
        rw [bdEqv_mk]
        have hmax : max (0 : Int) s = 0 := by omega
        rw [digitsVal_append_zeros, hval, hmax]
        simp only [sub_zero, zero_sub, Int.toNat_zero, pow_zero, mul_one]
        push_cast
        rw [abs_of_neg hv]
        ring
      · have hdisp : displayBigDec ⟨v, s⟩ = natDigs v.natAbs ++
            List.replicate (-s).toNat '0' := by
          simp only [displayBigDec, natToDigits_eq_natDigs]
          rw [if_neg hv, if_neg hb1, if_pos hb2]
        rw [hdisp, baseWithExp_digits hne2 hzeros]
        refine ⟨_, rfl, ?_⟩
        rw [bdEqv_mk]
        have hmax : max (0 : Int) s = 0 := by omega
        rw [digitsVal_append_zeros, hval, hmax]
        simp only [sub_zero, zero_sub, Int.toNat_zero, pow_zero, mul_one]
        push_cast
        rw [abs_of_nonneg (by omega : (0 : Int) ≤ v)]
    · -- Positive scale smaller than the digit count: the "dd.dd" shape.
      have hs0 : (0 : Int) < s := by omega
      have hslen : s.toNat < (natDigs v.natAbs).length := by omega
      have hxlen : 0 < ((natDigs v.natAbs).take
          ((natDigs v.natAbs).length - s.toNat)).length := by
        rw [List.length_take]
        omega
      have hx_ne : (natDigs v.natAbs).take
          ((natDigs v.natAbs).length - s.toNat) ≠ [] :=
        List.length_pos.mp hxlen
      have hdx : ∀ c ∈ (natDigs v.natAbs).take
          ((natDigs v.natAbs).length - s.toNat), isAsciiDigit c = true :=
        fun c hc => hdig c (List.take_subset _ _ hc)
      have hdy : ∀ c ∈ (natDigs v.natAbs).drop
          ((natDigs v.natAbs).length - s.toNat), isAsciiDigit c = true :=
        fun c hc => hdig c (List.drop_subset _ _ hc)
      have hdvxy : digitsVal ((natDigs v.natAbs).take
          ((natDigs v.natAbs).length - s.toNat) ++
          (natDigs v.natAbs).drop
            ((natDigs v.natAbs).length - s.toNat)) = v.natAbs := by
        rw [List.take_append_drop, hval]
      have hylen : ((((natDigs v.natAbs).drop
          ((natDigs v.natAbs).length - s.toNat))).length : Int) = s := by
        rw [List.length_drop]
        omega
      by_cases hv : v < 0
      · have hdisp : displayBigDec ⟨v, s⟩ = '-' ::
            ((natDigs v.natAbs).take ((natDigs v.natAbs).length - s.toNat)
              ++ '.' :: (natDigs v.natAbs).drop
                ((natDigs v.natAbs).length - s.toNat)) := by
          simp only [displayBigDec, natToDigits_eq_natDigs]
          rw [if_pos hv, if_neg hb1, if_neg hb2]
        rw [hdisp, baseWithExp_neg_dot hx_ne hdx hdy]
        refine ⟨_, rfl, ?_⟩
        have h1 : -(digitsVal ((natDigs v.natAbs).take
            ((natDigs v.natAbs).length - s.toNat) ++
            (natDigs v.natAbs).drop
              ((natDigs v.natAbs).length - s.toNat)) : Int) = v := by
          rw [hdvxy]
          omega
        have heq : (⟨-(digitsVal ((natDigs v.natAbs).take
            ((natDigs v.natAbs).length - s.toNat) ++
            (natDigs v.natAbs).drop
              ((natDigs v.natAbs).length - s.toNat)) : Int),
            ((((natDigs v.natAbs).drop
              ((natDigs v.natAbs).length - s.toNat))).length : Int)⟩ :
              BigDec) = ⟨v, s⟩ := by
          simp only [BigDec.mk.injEq]
          exact ⟨h1, hylen⟩
        rw [heq]
        exact bdEqv_refl _
      · have hdisp : displayBigDec ⟨v, s⟩ =
            (natDigs v.natAbs).take ((natDigs v.natAbs).length - s.toNat)
              ++ '.' :: (natDigs v.natAbs).drop
                ((natDigs v.natAbs).length - s.toNat) := by
          simp only [displayBigDec, natToDigits_eq_natDigs]
          rw [if_neg hv, if_neg hb1, if_neg hb2]
        rw [hdisp, baseWithExp_dot hx_ne hdx hdy]
        refine ⟨_, rfl, ?_⟩
        have h1 : ((digitsVal ((natDigs v.natAbs).take
            ((natDigs v.natAbs).length - s.toNat) ++
            (natDigs v.natAbs).drop
              ((natDigs v.natAbs).length - s.toNat)) : Nat) : Int) = v := by
          rw [hdvxy]
          omega
        have heq : (⟨((digitsVal ((natDigs v.natAbs).take
            ((natDigs v.natAbs).length - s.toNat) ++
            (natDigs v.natAbs).drop
              ((natDigs v.natAbs).length - s.toNat)) : Nat) : Int),
            ((((natDigs v.natAbs).drop
              ((natDigs v.natAbs).length - s.toNat))).length : Int)⟩ :
              BigDec) = ⟨v, s⟩ := by
          simp only [BigDec.mk.injEq]
          exact ⟨h1, hylen⟩
        rw [heq]
        exact bdEqv_refl _

theorem displayBigDec_ne_nil (d : BigDec) : displayBigDec d ≠ [] := by
  simp only [displayBigDec, natToDigits_eq_natDigs]
  split
  · simp
  · split
    · simp
    · split
      · simp [natDigs_ne_nil]
      · simp

theorem trimStart_space_cons (z : List Char) :
    trimStart (' ' :: z) = trimStart z := by
  unfold trimStart
  rw [List.dropWhile_cons, if_pos (by decide)]

/-- C1 (amended): for every valid `Entry` whose description additionally
carries no leading or trailing whitespace, serializing to the line
`"<day> <symbol> <amount> <description>"` and parsing that line back
yields an `Entry` equal (in the Rust `PartialEq` sense) to the original.
Without the no-surrounding-whitespace condition the claim fails, because
parsing trims the description (see the counterexample). -/
theorem c1_roundtrip_amended (e : Entry) (hv : claimValidEntry e)
    (hts : trimStart e.description = e.description)
    (hte : trimEnd e.description = e.description) :
    ∃ e2, Entry.from_str (serialize_entry e) = .ok e2 ∧ entryEqv e2 e := by
  obtain ⟨hd1, hd31, _hamt, htr⟩ := hv
  have hdesc_trim : trim e.description = e.description := trim_eq_self hts hte
  have hdesc_ne : e.description ≠ [] := by
    intro hh
    rw [hh] at htr
    exact htr (by rw [← hh, hdesc_trim, hh])
  have hdig := natDigs_all_digit e.day
  have hS : serialize_entry e = natDigs e.day ++ ' ' ::
      (kindSymbol e.typ :: ' ' ::
        (displayBigDec e.amount ++ ' ' :: e.description)) := by
    simp [serialize_entry, natToDigits_eq_natDigs]
  -- The serialized line is already trimmed.
  have htrim : trim (serialize_entry e) = serialize_entry e := by
    apply trim_eq_self
    · rcases hnd : natDigs e.day with _ | ⟨c, t⟩
      · exact absurd hnd (natDigs_ne_nil e.day)
      · have hc : isAsciiDigit c = true := by
          apply hdig
          rw [hnd]
          simp
        rw [hS, hnd, List.cons_append]
        exact trimStart_cons_not_ws (digit_not_ws hc)
    · have hS2 : serialize_entry e = (natDigs e.day ++ ' ' ::
          kindSymbol e.typ :: ' ' :: (displayBigDec e.amount ++ [' '])) ++
            e.description := by
        simp [serialize_entry, natToDigits_eq_natDigs]
      rw [hS2, trimEnd_append (by rw [hte]; exact hdesc_ne), hte]
  -- Stage 1: the day token.
  have hsplit1 : splitOnceSpace (serialize_entry e) =
      some (natDigs e.day, kindSymbol e.typ :: ' ' ::
        (displayBigDec e.amount ++ ' ' :: e.description)) := by
    rw [hS]
    exact splitOnceP_append
      (fun c hc => decide_eq_false (digit_ne_space (hdig c hc))) (by decide)
  have hday : parse_day (serialize_entry e) =
      .ok (e.day, kindSymbol e.typ :: ' ' ::
        (displayBigDec e.amount ++ ' ' :: e.description)) := by
    unfold parse_day
    rw [htrim]
    simp only [hsplit1, parseU8_natDigs (by omega : e.day ≤ 255)]
  -- Stage 2: the entry-type symbol.
  have htyp : parse_entry_type (kindSymbol e.typ :: ' ' ::
      (displayBigDec e.amount ++ ' ' :: e.description)) =
      .ok (e.typ, ' ' :: (displayBigDec e.amount ++ ' ' :: e.description)) := by
    rcases e.typ with _ | _ <;> rfl
  -- Stage 3: the decimal token.
  have hdchars := displayBigDec_no_space e.amount
  obtain ⟨d2, hd2, hd2eqv⟩ := display_roundtrip e.amount
  have hts2 : trimStart (' ' :: (displayBigDec e.amount ++ ' ' ::
      e.description)) = displayBigDec e.amount ++ ' ' :: e.description := by
    rw [trimStart_space_cons]
    rcases hdd : displayBigDec e.amount with _ | ⟨c, t⟩
    · exact absurd hdd (displayBigDec_ne_nil e.amount)
    · have hc : rustIsWhitespace c = false := by
        apply displayBigDec_not_ws e.amount
        rw [hdd]
        simp
      rw [List.cons_append]
      exact trimStart_cons_not_ws hc
  have hsplit2 : splitOnceSpace (displayBigDec e.amount ++ ' ' ::
      e.description) = some (displayBigDec e.amount, e.description) :=
    splitOnceP_append
      (fun c hc => decide_eq_false (hdchars c hc)) (by decide)
  have hsd : splitDesc (displayBigDec e.amount ++ ' ' :: e.description) =
      some (displayBigDec e.amount, e.description) := by
    unfold splitDesc
    simp only [hsplit2]
    rw [if_neg (by rw [hdesc_trim]; exact hdesc_ne)]
  have hdec : parse_decimal (' ' :: (displayBigDec e.amount ++ ' ' ::
      e.description)) = .ok (d2, e.description) := by
    unfold parse_decimal
    rw [hts2]
    simp only [hsd, hd2]
  -- Assemble.
  refine ⟨⟨e.day, e.typ, d2, trim e.description⟩, ?_, ?_⟩
  · unfold Entry.from_str
    simp only [hday, htyp, hdec]
    rfl
  · exact ⟨rfl, rfl, hd2eqv, by rw [hdesc_trim]⟩

/-- C1 witness: the round-trip theorem applied at a concrete valid entry. -/
theorem c1_roundtrip_witness :
    ∃ e2, Entry.from_str
        (serialize_entry ⟨22, .Credit, ⟨500, 2⟩, "Salary".data⟩) = .ok e2 ∧
      entryEqv e2 ⟨22, .Credit, ⟨500, 2⟩, "Salary".data⟩ :=
  c1_roundtrip_amended ⟨22, .Credit, ⟨500, 2⟩, "Salary".data⟩
    (by decide) (by decide) (by decide)

/-- C1 counterexample: a valid entry per the claim (day 22, Credit, amount
5.00, description " Salary", which is non-empty after trimming) whose
serialization parses back with the trimmed description "Salary", an entry
different from the original; so the round-trip claim as stated fails. -/
theorem c1_counterexample :
    claimValidEntry ⟨22, .Credit, ⟨500, 2⟩, " Salary".data⟩ ∧
    Entry.from_str (serialize_entry ⟨22, .Credit, ⟨500, 2⟩, " Salary".data⟩) =
      .ok ⟨22, .Credit, ⟨500, 2⟩, "Salary".data⟩ ∧
    ¬ entryEqv ⟨22, .Credit, ⟨500, 2⟩, "Salary".data⟩
      ⟨22, .Credit, ⟨500, 2⟩, " Salary".data⟩ := by
  refine ⟨by decide, by decide, by decide⟩

theorem splitDesc_some_trim {t dec r : List Char}
    (h : splitDesc t = some (dec, r)) : trim r ≠ [] := by
  unfold splitDesc at h
  rcases hso : splitOnceSpace t with _ | ⟨d0, r0⟩
  · simp only [hso] at h
    exact Option.noConfusion h
  · simp only [hso] at h
    by_cases htr : trim r0 = []
    · rw [if_pos htr] at h
      exact Option.noConfusion h
    · rw [if_neg htr] at h
      injection h with h2
      have hr : r0 = r := congrArg Prod.snd h2
      rwa [← hr]

theorem parse_decimal_ok_desc {input : List Char} {d : BigDec}
    {rest : List Char} (h : parse_decimal input = .ok (d, rest)) :
    trim rest ≠ [] := by
  unfold parse_decimal at h
  rcases hsd : splitDesc (trimStart input) with _ | ⟨dec, r⟩
  · simp only [hsd] at h
    exact Except.noConfusion h
  · simp only [hsd] at h
    rcases hbd : bigDecimalFromStr dec with _ | d0
    · simp only [hbd] at h
      exact Except.noConfusion h
    · simp only [hbd] at h
      injection h with h2
      have hr : r = rest := congrArg Prod.snd h2
      rw [← hr]
      exact splitDesc_some_trim hsd

theorem parse_day_ok_day {input : List Char} {day : Nat} {rest : List Char}
    (h : parse_day input = .ok (day, rest)) : day ≤ 255 := by
  unfold parse_day at h
  rcases hso : splitOnceSpace (trim input) with _ | ⟨first, r⟩
  · simp only [hso] at h
    exact Except.noConfusion h
  · simp only [hso] at h
    rcases hp : parseU8 first with _ | n
    · simp only [hp] at h
      exact Except.noConfusion h
    · simp only [hp] at h
      injection h with h2
      have hd : n = day := congrArg Prod.fst h2
      rw [← hd]
      exact parseU8_le hp

/-- C2 (amended): every `Entry` returned by a successful parse has a day
that fits in a `u8` (0–255 — zero is accepted, so the day need not be
positive), an amount that is an exact decimal but may be negative (the
decimal parser accepts a leading minus sign), and a description that is
non-empty and carries no surrounding whitespace (so it is non-empty after
trimming); an input line whose description is empty after trimming fails
to parse, since no successful parse can produce it. -/
theorem c2_parse_invariant (s : List Char) (e : Entry)
    (h : Entry.from_str s = .ok e) :
    e.day ≤ 255 ∧ e.description ≠ [] ∧ trim e.description = e.description := by
  unfold Entry.from_str at h
  rcases hpd : parse_day s with e0 | ⟨day, rest⟩
  · simp only [hpd] at h
    exact RtResult.noConfusion h
  · simp only [hpd] at h
    rcases hpt : parse_entry_type rest with ⟨typ, rest2⟩ | e1 | _
    · simp only [hpt] at h
      rcases hdec : parse_decimal rest2 with e2 | ⟨amount, rest3⟩
      · simp only [hdec] at h
        exact RtResult.noConfusion h
      · simp only [hdec] at h
        injection h with h2
        subst h2
        have htr : trim rest3 ≠ [] := parse_decimal_ok_desc hdec
        refine ⟨parse_day_ok_day hpd, ?_, trim_idem rest3⟩
        show parse_description rest3 ≠ []
        unfold parse_description
        exact htr
    · simp only [hpt] at h
      exact RtResult.noConfusion h
    · simp only [hpt] at h
      exact RtResult.noConfusion h

/-- C2 witness: the invariant theorem applied at a concrete parsed line. -/
theorem c2_parse_invariant_witness :
    (⟨22, .Credit, ⟨500, 2⟩, "Salary".data⟩ : Entry).day ≤ 255 ∧
    (⟨22, .Credit, ⟨500, 2⟩, "Salary".data⟩ : Entry).description ≠ [] ∧
    trim (⟨22, .Credit, ⟨500, 2⟩, "Salary".data⟩ : Entry).description =
      (⟨22, .Credit, ⟨500, 2⟩, "Salary".data⟩ : Entry).description :=
  c2_parse_invariant ("22 + 5.00 Salary".data) _ (by decide)

/-- C2 counterexample: the line "0 + -5.00 Food" parses successfully into
an entry whose day is 0 (not positive) and whose amount is the negative
exact decimal -5.00, contradicting the claimed non-negative-amount and
positive-day invariant. -/
theorem c2_counterexample :
    Entry.from_str ("0 + -5.00 Food".data) =
      .ok ⟨0, .Credit, ⟨-500, 2⟩, "Food".data⟩ ∧
    ((⟨-500, 2⟩ : BigDec).int_val < 0) ∧ ¬ (1 ≤ (0 : Nat)) := by
  refine ⟨by decide, by decide, by decide⟩

/-- C3: whenever the (left-trimmed) remainder after the type symbol cannot
be separated into an amount token followed by a non-whitespace remainder,
`parse_decimal` fails with `NoDescription` — regardless of whether the
amount token would have been a valid decimal; and `InvalidDecimal tok` is
produced only when a non-empty (after trimming) description was separated
first and `tok` then failed decimal parsing. -/
theorem c3_error_precedence (s : List Char) :
    (splitDesc (trimStart s) = none →
      parse_decimal s = .error (.NoDescription (trimStart s))) ∧
    (∀ tok : List Char, parse_decimal s = .error (.InvalidDecimal tok) →
      ∃ r, splitDesc (trimStart s) = some (tok, r) ∧ trim r ≠ [] ∧
        bigDecimalFromStr tok = none) := by
  constructor
  · intro h
    unfold parse_decimal
    simp only [h]
  · intro tok h
    unfold parse_decimal at h
    rcases hsd : splitDesc (trimStart s) with _ | ⟨dec, r⟩
    · simp only [hsd] at h
      injection h with h2
      exact ParseError.noConfusion h2
    · simp only [hsd] at h
      rcases hbd : bigDecimalFromStr dec with _ | d0
      · simp only [hbd] at h
        injection h with h2
        injection h2 with h3
        cases h3
        exact ⟨r, rfl, splitDesc_some_trim hsd, hbd⟩
      · simp only [hbd] at h
        exact Except.noConfusion h

/-- C3 witness: the token "NaN" is not a valid decimal and has no
description after it, and the parse indeed fails with `NoDescription`,
not `InvalidDecimal`. -/
theorem c3_error_precedence_witness :
    parse_decimal ("NaN".data) =
      .error (.NoDescription (trimStart ("NaN".data))) :=
  (c3_error_precedence ("NaN".data)).1 (by decide)

/-- C7 (amended): given that the trimmed input splits into a day token and
a rest, the day parse succeeds exactly when the token parses as a Rust
`u8` (optionally plus-signed digits with value at most 255) and fails with
`InvalidDay(token)` exactly otherwise; there is no 1–31 range check, so
every numeric token with value at most 255 is accepted — but numeric
tokens above 255 overflow the `u8` and are rejected, unlike what the
claim states. -/
theorem c7_day_token (input tok rest : List Char)
    (h : splitOnceSpace (trim input) = some (tok, rest)) :
    ((∃ n, parse_day input = .ok (n, rest)) ↔ (parseU8 tok).isSome = true) ∧
    (parse_day input = .error (.InvalidDay tok) ↔ parseU8 tok = none) ∧
    (∀ n : Nat, n ≤ 255 → parseU8 (natToDigits n) = some n) := by
  refine ⟨⟨?_, ?_⟩, ⟨?_, ?_⟩, ?_⟩
  · rintro ⟨n, hn⟩
    unfold parse_day at hn
    simp only [h] at hn
    rcases hp : parseU8 tok with _ | m
    · simp only [hp] at hn
      exact Except.noConfusion hn
    · simp [hp]
  · intro hs
    rcases Option.isSome_iff_exists.mp hs with ⟨n, hn⟩
    refine ⟨n, ?_⟩
    unfold parse_day
    simp only [h, hn]
  · intro hd
    unfold parse_day at hd
    simp only [h] at hd
    rcases hp : parseU8 tok with _ | m
    · rfl
    · simp only [hp] at hd
      exact Except.noConfusion hd
  · intro hp
    unfold parse_day
    simp only [h, hp]
  · intro n hn
    rw [natToDigits_eq_natDigs]
    exact parseU8_natDigs hn

/-- C7 witness: the day-token theorem applied at the line "77 x" (77 is
numeric, outside 1–31, within u8 range, and the day parse succeeds). -/
theorem c7_day_token_witness :
    ∃ n, parse_day ("77 x".data) = .ok (n, "x".data) :=
  ((c7_day_token ("77 x".data) ("77".data) ("x".data) (by decide)).1).mpr
    (by decide)

/-- C7 counterexample: "256" is a numeric day token (non-empty, all ASCII
digits) whose value lies outside 1–31, yet the day parse does not succeed:
it fails with InvalidDay("256") because the token is parsed as a `u8` and
256 overflows. -/
theorem c7_counterexample :
    ("256".data.all isAsciiDigit = true) ∧ "256".data ≠ [] ∧
    parse_day ("256 + 1.00 Lunch".data) =
      .error (.InvalidDay ("256".data)) := by
  refine ⟨by decide, by decide, by decide⟩

/-- C8: the claim is right about the intent and the code is wrong — on the
line "22 é 5.00 Coffee" the rest after the day starts with the two-byte
character 'é', and `parse_entry_type`'s `input.split_at(1)` panics (byte
index 1 is not a character boundary) instead of returning
`InvalidEntryType("é")`. -/
theorem c8_multibyte_panics :
    parse_entry_type ("é 5.00 Coffee".data) = .panicked ∧
    Entry.from_str ("22 é 5.00 Coffee".data) = .panicked ∧
    utf8Len 'é' = 2 := by
  refine ⟨by decide, by decide, by decide⟩

/-- C9: parsing "22 + 5.00 Salary" yields day 22, Credit, amount 5.00
(500 at scale 2) and description "Salary"; parsing "12 - 6.000 Rent"
yields day 12, Debit, amount 6.000 (6000 at scale 3, numerically equal to
6.00) and description "Rent". -/
theorem c9_concrete_examples :
    Entry.from_str ("22 + 5.00 Salary".data) =
      .ok ⟨22, .Credit, ⟨500, 2⟩, "Salary".data⟩ ∧
    bigDecimalFromStr ("5.00".data) = some ⟨500, 2⟩ ∧
    Entry.from_str ("12 - 6.000 Rent".data) =
      .ok ⟨12, .Debit, ⟨6000, 3⟩, "Rent".data⟩ ∧
    bigDecimalFromStr ("6.00".data) = some ⟨600, 2⟩ ∧
    bdEqv ⟨6000, 3⟩ ⟨600, 2⟩ := by
  refine ⟨by decide, by decide, by decide, by decide, by decide⟩

/-- C4: aggregating the store with put list ["22 + 200.50 Payment",
"22 + 300.25 Another Payment"] and take list ["23 - 10.25 Lunch",
"23 - 10.27 Dinner", "24 - 400.00 X"] yields put_total exactly 500.75 and
take_total exactly 420.52; each total is the exact-decimal sum of the
amounts over its partition, and the sum over zero entries is 0. -/
theorem c4_aggregation_totals :
    from_toml_table (mkStore
        ["23 - 10.25 Lunch".data, "23 - 10.27 Dinner".data,
          "24 - 400.00 X".data]
        ["22 + 200.50 Payment".data, "22 + 300.25 Another Payment".data])
        "05-2024" = some
      ⟨⟨42052, 2⟩, ⟨50075, 2⟩,
        [⟨23, .Debit, ⟨1025, 2⟩, "Lunch".data⟩,
          ⟨23, .Debit, ⟨1027, 2⟩, "Dinner".data⟩,
          ⟨24, .Debit, ⟨40000, 2⟩, "X".data⟩,
          ⟨22, .Credit, ⟨20050, 2⟩, "Payment".data⟩,
          ⟨22, .Credit, ⟨30025, 2⟩, "Another Payment".data⟩],
        [⟨22, .Credit, ⟨20050, 2⟩, "Payment".data⟩,
          ⟨22, .Credit, ⟨30025, 2⟩, "Another Payment".data⟩],
        [⟨23, .Debit, ⟨1025, 2⟩, "Lunch".data⟩,
          ⟨23, .Debit, ⟨1027, 2⟩, "Dinner".data⟩,
          ⟨24, .Debit, ⟨40000, 2⟩, "X".data⟩],
        "05-2024"⟩ ∧
    bigDecimalFromStr ("500.75".data) = some ⟨50075, 2⟩ ∧
    bigDecimalFromStr ("420.52".data) = some ⟨42052, 2⟩ ∧
    (⟨50075, 2⟩ : BigDec) = bdSum
      [(⟨20050, 2⟩ : BigDec), (⟨30025, 2⟩ : BigDec)] ∧
    (⟨42052, 2⟩ : BigDec) = bdSum
      [(⟨1025, 2⟩ : BigDec), (⟨1027, 2⟩ : BigDec), (⟨40000, 2⟩ : BigDec)] ∧
    bdSum [] = ⟨0, 0⟩ := by
  refine ⟨by decide, by decide, by decide, by decide, by decide, by decide⟩

/-! Helper lemmas: store aggregation. -/

theorem asStrAll_map_str (l : List (List Char)) :
    asStrAll (l.map TomlValue.str) = some l := by
  induction l with
  | nil => rfl
  | cons s t ih => simp [asStrAll, ih]

theorem tomlGet_mkStore_take (take put : List (List Char)) :
    tomlGet (mkStore take put) "take" =
      some (.arr (take.map TomlValue.str)) := rfl

theorem tomlGet_mkStore_put (take put : List (List Char)) :
    tomlGet (mkStore take put) "put" =
      some (.arr (put.map TomlValue.str)) := rfl

theorem from_toml_table_mkStore (take put : List (List Char))
    (month : String) :
    from_toml_table (mkStore take put) month =
      match parseAllLines (take ++ put) with
      | none => none
      | some ops =>
        some ⟨bdSum ((partitionOps ops).1.map Entry.amount),
          bdSum ((partitionOps ops).2.map Entry.amount), ops,
          (partitionOps ops).2, (partitionOps ops).1, month⟩ := by
  unfold from_toml_table
  rw [tomlGet_mkStore_take, tomlGet_mkStore_put]
  have hmaps : take.map TomlValue.str ++ put.map TomlValue.str =
      (take ++ put).map TomlValue.str := (List.map_append _ _ _).symm
  simp only [hmaps, asStrAll_map_str]

theorem parseAllLines_isSome_iff (ls : List (List Char)) :
    (parseAllLines ls).isSome = true ↔
      ∀ l ∈ ls, ∃ e, Entry.from_str l = .ok e := by
  induction ls with
  | nil => simp [parseAllLines]
  | cons l t ih =>
    rcases hfs : Entry.from_str l with e | e0 | _
    · simp only [parseAllLines, hfs, List.forall_mem_cons, Option.isSome_map']
      rw [ih]
      constructor
      · intro hall
        exact ⟨⟨e, rfl⟩, hall⟩
      · intro hall
        exact hall.2
    · simp only [parseAllLines, hfs, List.forall_mem_cons]
      constructor
      · intro hh
        exact absurd hh (by simp)
      · rintro ⟨⟨e2, he2⟩, _⟩
        exact RtResult.noConfusion he2
    · simp only [parseAllLines, hfs, List.forall_mem_cons]
      constructor
      · intro hh
        exact absurd hh (by simp)
      · rintro ⟨⟨e2, he2⟩, _⟩
        exact RtResult.noConfusion he2

theorem parseAllLines_append (a b : List (List Char)) :
    parseAllLines (a ++ b) =
      (parseAllLines a).bind
        (fun x => (parseAllLines b).map (fun y => x ++ y)) := by
  induction a with
  | nil =>
    simp only [List.nil_append, parseAllLines, Option.bind]
    rcases parseAllLines b with _ | ops <;> simp
  | cons l t ih =>
    rcases hfs : Entry.from_str l with e | e0 | _
    · have hl : parseAllLines (l :: (t ++ b)) =
          (parseAllLines (t ++ b)).map (fun es => e :: es) := by
        simp [parseAllLines, hfs]
      have hl2 : parseAllLines (l :: t) =
          (parseAllLines t).map (fun es => e :: es) := by
        simp [parseAllLines, hfs]
      rw [List.cons_append, hl, hl2, ih]
      rcases parseAllLines t with _ | tOps
      · simp
      · rcases parseAllLines b with _ | bOps <;> simp
    · have hl : parseAllLines (l :: (t ++ b)) = none := by
        simp [parseAllLines, hfs]
      have hl2 : parseAllLines (l :: t) = none := by
        simp [parseAllLines, hfs]
      rw [List.cons_append, hl, hl2]
      rfl
    · have hl : parseAllLines (l :: (t ++ b)) = none := by
        simp [parseAllLines, hfs]
      have hl2 : parseAllLines (l :: t) = none := by
        simp [parseAllLines, hfs]
      rw [List.cons_append, hl, hl2]
      rfl

/-- C5: every line of the take list and every line of the put list is fed
through the entry parser, and the aggregation produces a status exactly
when all of them parse; if any single line fails to parse, the whole
aggregation aborts with no status (the Rust code panics on the `unwrap`,
which aborts the invocation and reports the parse error), so a status
with partial results is never produced. -/
theorem c5_abort_on_parse_failure (take put : List (List Char))
    (month : String) :
    ((∀ l ∈ take ++ put, ∃ e, Entry.from_str l = .ok e) ↔
      (from_toml_table (mkStore take put) month).isSome = true) ∧
    ((∃ l ∈ take ++ put, ∀ e, Entry.from_str l ≠ .ok e) →
      from_toml_table (mkStore take put) month = none) := by
  have hred := from_toml_table_mkStore take put month
  constructor
  · rw [hred]
    rcases hpl : parseAllLines (take ++ put) with _ | ops
    · constructor
      · intro hall
        exfalso
        have h2 := (parseAllLines_isSome_iff (take ++ put)).mpr hall
        rw [hpl] at h2
        exact Bool.noConfusion h2
      · intro h2
        exact absurd h2 (by simp)
    · constructor
      · intro _
        simp
      · intro _
        exact (parseAllLines_isSome_iff (take ++ put)).mp (by rw [hpl]; rfl)
  · rintro ⟨l, hl, hfail⟩
    rw [hred]
    rcases hpl : parseAllLines (take ++ put) with _ | ops
    · rfl
    · exfalso
      have hall := (parseAllLines_isSome_iff (take ++ put)).mp
        (by rw [hpl]; rfl)
      rcases hall l hl with ⟨e, he⟩
      exact hfail e he

/-- C5 witness: the abort theorem applied at a concrete store; the line
after the parse failure shows the successful direction at one line. -/
theorem c5_abort_on_parse_failure_witness :
    ∃ e, Entry.from_str ("1 - 2.00 A".data) = .ok e :=
  ((c5_abort_on_parse_failure ["1 - 2.00 A".data] [] "05-2024").1).mpr
    (by decide) ("1 - 2.00 A".data) (by decide)

/-- C10: whenever a store whose take and put line lists all parse is
aggregated, `all_operations` is exactly the entries parsed from the take
list, in their original order, followed by the entries parsed from the
put list, in their original order — independent of the entries' day
values. -/
theorem c10_all_operations_order (take put : List (List Char))
    (month : String) (st : BookkeeperStatus)
    (h : from_toml_table (mkStore take put) month = some st) :
    ∃ takeOps putOps, parseAllLines take = some takeOps ∧
      parseAllLines put = some putOps ∧
      st.all_operations = takeOps ++ putOps := by
  rw [from_toml_table_mkStore] at h
  rcases hpl : parseAllLines (take ++ put) with _ | ops
  · rw [hpl] at h
    exact Option.noConfusion h
  · simp only [hpl] at h
    injection h with h2
    rw [parseAllLines_append] at hpl
    rcases hta : parseAllLines take with _ | tOps
    · rw [hta] at hpl
      exact Option.noConfusion hpl
    · rcases htp : parseAllLines put with _ | pOps
      · rw [hta, htp] at hpl
        exact Option.noConfusion hpl
      · rw [hta, htp] at hpl
        simp only [Option.bind, Option.map] at hpl
        injection hpl with h3
        refine ⟨tOps, pOps, rfl, rfl, ?_⟩
        rw [← h2, h3]

/-- C10 witness: the ordering theorem applied at a concrete store whose
take entry has a later day than the put entry. -/
theorem c10_all_operations_order_witness :
    ∃ takeOps putOps,
      parseAllLines ["9 - 2.00 A".data] = some takeOps ∧
      parseAllLines ["1 + 3.00 B".data] = some putOps ∧
      (BookkeeperStatus.mk ⟨200, 2⟩ ⟨300, 2⟩
        [⟨9, .Debit, ⟨200, 2⟩, "A".data⟩, ⟨1, .Credit, ⟨300, 2⟩, "B".data⟩]
        [⟨1, .Credit, ⟨300, 2⟩, "B".data⟩]
        [⟨9, .Debit, ⟨200, 2⟩, "A".data⟩]
        "05-2024").all_operations = takeOps ++ putOps :=
  c10_all_operations_order ["9 - 2.00 A".data] ["1 + 3.00 B".data]
    "05-2024" _ (by decide)

/-! Helper lemmas: structural validation of the month document. -/

theorem type_check_eq (table : List (String × TomlValue)) :
    type_check_toml_fields table =
      (if takeFieldOk table = true then ([] : List String) else ["take"]) ++
        ((if putFieldOk table = true then ([] : List String) else ["put"]) ++
          (if targetFieldOk table = true then ([] : List String)
            else ["target"])) := by
  have h1 : (mapOr (tomlGet table "take") false tomlIsArray &&
      is_array_of_strings (tomlGet table "take")) = takeFieldOk table := by
    unfold mapOr is_array_of_strings takeFieldOk tomlIsArray
    rcases tomlGet table "take" with _ | v
    · rfl
    · cases v <;> rfl
  have h2 : (mapOr (tomlGet table "put") false tomlIsArray &&
      is_array_of_strings (tomlGet table "put")) = putFieldOk table := by
    unfold mapOr is_array_of_strings putFieldOk tomlIsArray
    rcases tomlGet table "put" with _ | v
    · rfl
    · cases v <;> rfl
  have h3 : mapOr (tomlGet table "target") true tomlIsInteger =
      targetFieldOk table := by
    unfold mapOr targetFieldOk tomlIsInteger
    rcases tomlGet table "target" with _ | v
    · rfl
    · cases v <;> rfl
  simp only [type_check_toml_fields, into_diagnosis, h1, h2, h3,
    List.append_assoc]

theorem mem_if_singleton (x y : String) (b : Bool) :
    (x ∈ (if b = true then ([] : List String) else [y])) ↔
      (b = false ∧ x = y) := by
  cases b <;> simp

/-- C6: loading a month document validates structure before any entry
parsing — reason starts spec-modelled because `TomlTypeCheck::into_diagnosis`
is declared outside src/.  Whenever the `take` or `put` field is not an
array of strings or `target` is present but not an integer, the load
returns a type error carrying the diagnosis rather than producing a
status, the diagnosis is non-empty, and it names exactly the malformed
fields. -/
theorem c6_structural_validation (table : List (String × TomlValue))
    (month : String)
    (h : ¬(takeFieldOk table = true ∧ putFieldOk table = true ∧
      targetFieldOk table = true)) :
    load_from_table table month =
      .typeError (type_check_toml_fields table) ∧
    type_check_toml_fields table ≠ [] ∧
    (("take" ∈ type_check_toml_fields table) ↔ takeFieldOk table = false) ∧
    (("put" ∈ type_check_toml_fields table) ↔ putFieldOk table = false) ∧
    (("target" ∈ type_check_toml_fields table) ↔
      targetFieldOk table = false) := by
  have htc := type_check_eq table
  have hne : type_check_toml_fields table ≠ [] := by
    by_cases h1 : takeFieldOk table = true
    · by_cases h2 : putFieldOk table = true
      · by_cases h3 : targetFieldOk table = true
        · exact absurd ⟨h1, h2, h3⟩ h
        · rw [htc]
          simp [h1, h2, h3]
      · rw [htc]
        simp [h1, h2]
    · rw [htc]
      simp [h1]
  refine ⟨?_, hne, ?_, ?_, ?_⟩
  · simp only [load_from_table]
    rw [if_neg hne]
  · rw [htc]
    simp [List.mem_append, mem_if_singleton,
      (by decide : ("take" : String) ≠ "put"),
      (by decide : ("take" : String) ≠ "target")]
  · rw [htc]
    simp [List.mem_append, mem_if_singleton,
      (by decide : ("put" : String) ≠ "take"),
      (by decide : ("put" : String) ≠ "target")]
  · rw [htc]
    simp [List.mem_append, mem_if_singleton,
      (by decide : ("target" : String) ≠ "take"),
      (by decide : ("target" : String) ≠ "put")]

/-- C6 witness: the validation theorem applied at the empty document
(missing `take` and `put`), whose load fails with a diagnosis naming
both missing list fields. -/
theorem c6_structural_validation_witness :
    load_from_table [] "05-2024" =
      .typeError (type_check_toml_fields []) ∧
    type_check_toml_fields ([] : List (String × TomlValue)) ≠ [] ∧
    (("take" ∈ type_check_toml_fields ([] : List (String × TomlValue))) ↔
      takeFieldOk [] = false) ∧
    (("put" ∈ type_check_toml_fields ([] : List (String × TomlValue))) ↔
      putFieldOk [] = false) ∧
    (("target" ∈ type_check_toml_fields ([] : List (String × TomlValue))) ↔
      targetFieldOk [] = false) :=
  c6_structural_validation [] "05-2024" (by decide)
